import Mathlib

/-
  Verification development for the Sleeposcope preprocessing pipeline.

  Shallow embedding of:
    src/sleeposcope_modules/preprocessing_module.py
    src/sleeposcope_modules/sanity_check_module.py
    src/pre_process_subject_data.py

  Modelling conventions, read before diffing against the source:
  * A subject record (one row of `subject_df`) is an `InRow`: its `date_time`
    is a local-time instant modelled as an integer number of wall-clock
    seconds (the data is at 1 Hz second resolution, and all arithmetic the
    code performs on timestamps is whole-second arithmetic); `meas_sig_str`
    is an opaque numeric signal value modelled as an `Int` (the gap filler
    only moves values around, it never computes with them); `status` is an
    opaque field, also modelled as `Int`.
  * A pandas cell that may be NaN is an `Option`; a dataframe raising an
    exception is an `Except` result.
  * Label-based lookup via a list of labels (`df.loc[labels]`) follows the
    reindex-style semantics of the pandas versions this 2017/2018-era code
    was written against (and under which the code runs at all): a label
    absent from the index yields a NaN-filled row rather than a KeyError.
  * `pd.to_datetime(series_of_naive_strings, utc=True)` is modelled as
    returning tz-naive values, again matching the pandas era this code
    targets: the subsequent `tz_localize('UTC')` the source performs only
    succeeds on naive timestamps, so this is the semantics the running code
    exhibits.
  * Time zones are modelled as fixed UTC offsets (US/Pacific = UTC-8);
    daylight-saving transitions are outside the embedding.
-/

namespace Sleeposcope

/-! ## Error taxonomy (sanity_check_module.py exception classes,
  plus python builtin errors the code can surface). -/

inductive SErr where
  | dataFrameIsNone
  | dataFrameIsEmpty
  | dataFrameContainsNans
  | failedToReadCSV
  | dataFileIsDefective
  | fileIsNotCorrectDataFile
  | dateTimeColumnIsDefective
  /-- python builtin ValueError (e.g. `pd.concat([])`, unparseable datetimes). -/
  | valueError
  /-- python builtin TypeError (e.g. localizing an already tz-aware timestamp). -/
  | typeError
  | subjectNumMismatch
deriving DecidableEq

/-! ## Data model for the gap filler (preprocessing_module.py) -/

/-- One row of `subject_df` as it enters `fill_missing_data`: columns
  `date_time` (local timestamp, in seconds), `meas_sig_str`, `status`. -/
structure InRow where
  date_time : Int
  meas_sig_str : Int
  status : Int
deriving DecidableEq

/-- One row of the re-indexed (dense) frame: any field may be NaN (`none`)
  on a synthesized row. -/
structure DenseRow where
  date_time : Option Int
  meas_sig_str : Option Int
  status : Option Int
deriving DecidableEq

/-- python `min` over a column (defined as 0 on the empty list; the code
  never takes the min of an empty series on the paths modelled here). -/
def minList : List Int → Int
  | [] => 0
  | [x] => x
  | x :: xs => min x (minList xs)

/-- python `max` over a column. -/
def maxList : List Int → Int
  | [] => 0
  | [x] => x
  | x :: xs => max x (maxList xs)

/-- `num_seconds` (preprocessing_module.py lines 127-140): seconds of each
  record relative to the first recorded instant,
  `secs = pandas_time_stamp - min(pandas_time_stamp)`. Subtraction of
  second-resolution instants is exact, so the `int(total_seconds())`
  truncation is the identity here. -/
def num_seconds (dts : List Int) : List Int :=
  dts.map (fun t => t - minList dts)

/-- The `secs` index column computed by `fill_missing_data` lines 157-159. -/
def secsOf (df : List InRow) : List Int :=
  num_seconds (df.map (·.date_time))

/-- `max(subject_df.index)` at line 162. -/
def maxSecond (df : List InRow) : Int := maxList (secsOf df)

/-- The same bound as a natural number (it is nonnegative whenever the
  frame is nonempty). -/
def maxSecondN (df : List InRow) : Nat := (maxSecond df).toNat

/-- Whether second `s` carries a measured record (`s ∈ set(secs)`). -/
def measuredAt (df : List InRow) (s : Nat) : Bool :=
  (secsOf df).contains (Int.ofNat s)

/-- Membership in `missing_secs = continuous_secs - set(secs)` (line 167),
  for `s` ranging over `continuous_secs = set(range(0, max(index)))`. -/
def missingB (df : List InRow) (s : Nat) : Bool := ! measuredAt df s

/-- The list of missing seconds, in the ascending order in which pandas
  iterates `set(range(0, max_second))`. -/
def missingList (df : List InRow) : List Nat :=
  (List.range (maxSecondN df)).filter (fun s => missingB df s)

/-- Row lookup by index label in `subject_df.set_index('secs')`. -/
def lookupRow (df : List InRow) (i : Int) : Option InRow :=
  (List.find? (fun p => p.1 = i) ((secsOf df).zip df)).map (·.2)

/-- `subject_df.reindex(continuous_secs)` at a single label (line 165):
  labels present keep their row, labels absent get an all-NaN row. -/
def reindexRow (df : List InRow) (i : Int) : DenseRow :=
  match lookupRow df i with
  | some r => ⟨some r.date_time, some r.meas_sig_str, some r.status⟩
  | none => ⟨none, none, none⟩

/-! ## Block detection (fill_missing_signal_values, lines 233-251).
  `newcol` is 0 on measured rows and -1000 on missing rows; block ids are
  the cumulative sum of the change-point indicator
  `(newcol.shift(1) != newcol)`, scanning the dense frame in index order. -/

/-- The `newcol` marker column (lines 237-238). -/
def newcol (m : Nat → Bool) (s : Nat) : Int := if m s then -1000 else 0

/-- Block id of dense position `s`:
  `(sig_str_df.newcol.shift(1) != sig_str_df.newcol).astype(int).cumsum()`
  (lines 239-240). The shifted comparison at position 0 is against NaN and
  therefore counts as a change, so ids start at 1. -/
def blockId (m : Nat → Bool) : Nat → Nat
  | 0 => 1
  | s + 1 => if newcol m (s + 1) = newcol m s then blockId m s else blockId m s + 1

/-- `group.shape[0]` for the `(block, newcol)` group containing position
  `s`: the number of dense positions sharing `s`'s block id (equal block
  ids force equal `newcol`, so grouping by the pair is grouping by id). -/
def blockLen (m : Nat → Bool) (mx s : Nat) : Nat :=
  (List.range mx).countP (fun t => blockId m t == blockId m s)

/-- `sig_str_df.loc[label, 'meas_sig_str']` for a single (integer) label,
  on the dense frame whose index is `range(0, max_second)`: labels in
  range return the (possibly NaN) dense signal cell, labels out of range
  return NaN (reindex-style lookup, see the header note). -/
def sigLookup (df : List InRow) (i : Int) : Option Int :=
  if 0 ≤ i ∧ i < maxSecond df then (reindexRow df i).meas_sig_str else none

/-- The signal cell of dense position `s` after
  `fill_missing_signal_values` (lines 217-261): a missing position in a
  block of length `L ≤ 5*60` receives `sig_str_df.loc[s - L]` (the filler
  is assigned position-for-position, and `shape_filler_ind =
  missing_block_inds - len(missing_block_inds)`); a missing position in a
  longer block keeps NaN; a measured position keeps its value. The final
  `full_subject_df.loc[missing_secs] = sig_str_df.loc[missing_secs,
  'copy_sig']` writes each missing row's accumulated `copy_sig` cell,
  which is exactly this per-position value. -/
def fillSig (df : List InRow) (s : Nat) : Option Int :=
  if missingB df s then
    let L := blockLen (missingB df) (maxSecondN df) s
    if L ≤ 300 then sigLookup df (Int.ofNat s - Int.ofNat L) else none
  else (reindexRow df (Int.ofNat s)).meas_sig_str

/-- `min(full_subject_df.date_time)`: pandas `min` skips NaN, so this is
  the minimum over the measured timestamps. -/
def minDT (df : List InRow) : Int := minList (df.map (·.date_time))

/-- The dense row at position `s` after both filling passes:
  `fill_missing_time_stamps` (lines 189-214) writes
  `min(date_time) + Timedelta(s)` into each missing row's `date_time`;
  `fill_missing_signal_values` writes the signal; `status` is never
  filled and stays NaN on synthesized rows. -/
def denseRowAt (df : List InRow) (s : Nat) : DenseRow :=
  let rx := reindexRow df (Int.ofNat s)
  { date_time := if missingB df s then some (minDT df + Int.ofNat s) else rx.date_time
    meas_sig_str := fillSig df s
    status := rx.status }

/-- The frame returned by `fill_missing_data` (lines 143-186) before the
  final validity check, as (index label, row) pairs. On the fast path
  (`len(missing_secs) == 0`, lines 169-170) the original frame indexed by
  `secs` is returned unchanged; otherwise the re-indexed and filled frame
  over `range(0, max_second)` is returned. -/
def fillResult (df : List InRow) : List (Int × DenseRow) :=
  if missingList df = [] then
    (secsOf df).zip (df.map (fun r => ⟨some r.date_time, some r.meas_sig_str, some r.status⟩))
  else
    (List.range (maxSecondN df)).map (fun s => (Int.ofNat s, denseRowAt df s))

/-- Whether the dense frame contains any NaN cell. -/
def denseHasNans (l : List (Int × DenseRow)) : Bool :=
  l.any (fun p => p.2.date_time.isNone || p.2.meas_sig_str.isNone || p.2.status.isNone)

/-- `check_if_data_frame_is_valid` (sanity_check_module.py lines 92-105)
  applied to the dense frame (the frame itself is never python `None` at
  this call site). -/
def checkValidDense (l : List (Int × DenseRow)) : Except SErr Unit :=
  if l.length = 0 then .error .dataFrameIsEmpty
  else if denseHasNans l then .error .dataFrameContainsNans
  else .ok ()

/-- `fill_missing_data` (lines 143-186) including its closing guard: the
  validity check is run, but a `DataFrameContainsNans` failure is caught
  and ignored (lines 180-184) — rows of long gaps legitimately keep NaN. -/
def fill_missing_data (df : List InRow) : Except SErr (List (Int × DenseRow)) :=
  match checkValidDense (fillResult df) with
  | .error .dataFrameContainsNans => .ok (fillResult df)
  | .error e => .error e
  | .ok _ => .ok (fillResult df)

/-- The signal cell of the returned frame at dense position `s`. -/
def resultSigVal (df : List InRow) (s : Nat) : Option Int :=
  ((fillResult df).getD s (0, ⟨none, none, none⟩)).2.meas_sig_str

/-- The pre-fill dense signal column (the `meas_sig_str` of the
  re-indexed frame) at position `s`. -/
def origSigAt (df : List InRow) (s : Nat) : Option Int :=
  (reindexRow df (Int.ofNat s)).meas_sig_str

/-- Row provenance in the spec's vocabulary. The code has no `source`
  column; a synthesized row's provenance is read off its cells: a missing
  second whose signal was copied is `interpolated`, one whose signal is
  still NaN is `unknown`. -/
inductive Source where
  | measured
  | interpolated
  | unknown
deriving DecidableEq

/-- Provenance of dense position `s` in the filled frame. -/
def sourceAt (df : List InRow) (s : Nat) : Source :=
  if missingB df s = false then .measured
  else if (fillSig df s).isSome then .interpolated
  else .unknown

/-! ## Day partitioner (divide_to_24_hour_periods, lines 264-307).
  Timestamps are local wall-clock seconds; `hour`, `date()` and the noon
  of a day are ordinary integer arithmetic on them. -/

/-- `timestamp.hour`. -/
def hourOf (t : Int) : Int := (t % 86400) / 3600

/-- `pd.to_datetime(str(t.date()) + ' 12:00:00')`, localized: noon of the
  same local calendar day as `t`. -/
def noonOfDay (t : Int) : Int := t - t % 86400 + 43200

/-- Lines 288-293: the first noon boundary after (or at) the start. -/
def firstNoon (t0 : Int) : Int :=
  if hourOf t0 < 12 then noonOfDay t0 else noonOfDay t0 + 86400

/-- Fuel-driven unfolding of the `while next_day_onset < end_of_time`
  loop (lines 295-297); each iteration appends the boundary and advances
  it by 24 hours. The fuel `(endT - next).toNat` always suffices. -/
def genOnsetsFuel : Nat → Int → Int → List Int
  | 0, _, _ => []
  | fuel + 1, next, endT =>
    if next < endT then next :: genOnsetsFuel fuel (next + 86400) endT else []

/-- The boundaries appended by the while loop. -/
def genOnsets (next endT : Int) : List Int :=
  genOnsetsFuel (endT - next).toNat next endT

/-- The value of `next_day_onset` when the while loop exits. -/
def finalNextFuel : Nat → Int → Int → Int
  | 0, next, _ => next
  | fuel + 1, next, endT =>
    if next < endT then finalNextFuel fuel (next + 86400) endT else next

/-- `next_day_onset` after the loop: the first generated boundary that
  meets or exceeds the last timestamp. -/
def finalNext (next endT : Int) : Int :=
  finalNextFuel (endT - next).toNat next endT

/-- `day_onsets` (lines 285-297): the recording start followed by every
  generated boundary strictly before the last timestamp. -/
def dayOnsetsOf (t0 endT : Int) : List Int :=
  t0 :: genOnsets (firstNoon t0) endT

/-- `tomorrow` for onset index `d` (line 301): `onsets[d+1]` when
  `d + 1 < len(day_onsets) - 1`, and the post-loop `next_day_onset`
  otherwise. -/
def tomorrowFn (onsets : List Int) (fin : Int) (d : Nat) : Int :=
  if d + 1 < onsets.length - 1 then onsets.getD (d + 1) 0 else fin

/-- The assignment loop (lines 300-303): for each onset index `d`,
  records in `[onsets[d], tomorrow_d)` are overwritten with day `d+1`.
  Records never matched keep NaN. -/
def dayLoop (onsets : List Int) (fin : Int) (t : Int) : Option Nat :=
  (List.range onsets.length).foldl
    (fun acc d =>
      if onsets.getD d 0 ≤ t ∧ t < tomorrowFn onsets fin d then some (d + 1) else acc)
    none

/-- `divide_to_24_hour_periods` on the `date_time` column (the output
  `num_days` column as a list of possibly-NaN day numbers). -/
def divide_to_24_hour_periods (dts : List Int) : List (Option Nat) :=
  let t0 := dts.headD 0
  let endT := dts.getLastD 0
  let onsets := dayOnsetsOf t0 endT
  let fin := finalNext (firstNoon t0) endT
  dts.map (dayLoop onsets fin)

/-- Modelled from the spec: "the same calendar date at 12:00 local" —
  noon of the calendar day containing `t`, written independently of the
  source's `t - t % 86400 + 43200` arithmetic, for comparison. -/
def sameDateNoonSpec (t : Int) : Int := 86400 * (t / 86400) + 43200

/-! ## Time normalization (convert_to_local_time, lines 97-124). -/

/-- Time zones handled by the code, as fixed UTC offsets. -/
inductive Tz where
  | utc
  | pacific
deriving DecidableEq

/-- Offset added to a UTC instant to obtain local wall time. -/
def tzOffset : Tz → Int
  | .utc => 0
  | .pacific => -28800

/-- A pandas Timestamp: a wall-clock value plus an optional attached
  zone (`none` = tz-naive). -/
structure PdTimestamp where
  wall : Int
  tz : Option Tz
deriving DecidableEq

/-- `Timestamp.tz_localize(z)`: attaches a zone to a naive timestamp;
  raises TypeError on an already tz-aware one. -/
def tz_localize (z : Tz) (t : PdTimestamp) : Except SErr PdTimestamp :=
  match t.tz with
  | none => .ok ⟨t.wall, some z⟩
  | some _ => .error .typeError

/-- `Timestamp.tz_convert(z)`: converts an aware timestamp to another
  zone (same instant, new wall clock); raises TypeError on naive input. -/
def tz_convert (z : Tz) (t : PdTimestamp) : Except SErr PdTimestamp :=
  match t.tz with
  | some z0 => .ok ⟨t.wall - tzOffset z0 + tzOffset z, some z⟩
  | none => .error .typeError

/-- A raw `yyyy-mm-ddThh:mm:ssZ` timestamp string, modelled by its parse
  outcome after the `Z`/`T` stripping of lines 110-111: either the UTC
  instant it denotes (in seconds) or a malformed string. -/
inductive RawTimestamp where
  | wellFormed (utcSeconds : Int)
  | malformed
deriving DecidableEq

/-- Parsing a single stripped timestamp string. -/
def parseOne : RawTimestamp → Option Int
  | .wellFormed u => some u
  | .malformed => none

/-- `pd.to_datetime(series, utc=True)` on a series of tz-naive strings
  (lines 113-114): parses every element or raises ValueError if any
  element is unparseable; the returned values are tz-naive (see the
  header note on the pandas era this code targets). -/
def to_datetime_utc (l : List RawTimestamp) : Except SErr (List PdTimestamp) :=
  if l.all (fun r => (parseOne r).isSome) then
    .ok (l.filterMap (fun r => (parseOne r).map (fun u => ⟨u, none⟩)))
  else .error .valueError

/-- `series.apply(f)` where `f` may raise: the first element exception
  aborts the whole apply. -/
def seriesApply (f : PdTimestamp → Except SErr PdTimestamp) (l : List PdTimestamp) :
    Except SErr (List PdTimestamp) :=
  l.mapM f

/-- `convert_to_local_time` (lines 97-124): strip-and-parse (ValueError
  is caught and re-raised as `DateTimeColumnIsDefectiveError`), then
  localize each element to UTC, then convert each to US/Pacific. -/
def convert_to_local_time (l : List RawTimestamp) : Except SErr (List PdTimestamp) :=
  match to_datetime_utc l with
  | .error .valueError => .error .dateTimeColumnIsDefective
  | .error e => .error e
  | .ok dt =>
    match seriesApply (tz_localize .utc) dt with
    | .error e => .error e
    | .ok dt2 =>
      match seriesApply (tz_convert .pacific) dt2 with
      | .error e => .error e
      | .ok dt3 => .ok dt3

/-- Modelled from the spec: "converts every instant to a fixed target
  local time zone (default US/Pacific)" — the Pacific local timestamp of
  a UTC instant, under the same fixed-offset model. -/
def pacificInstantOf (u : Int) : PdTimestamp := ⟨u - 28800, some .pacific⟩

/-! ## Loader (read_data batch loop, preprocessing_module.py lines 17-68,
  and sanity_check_module.py checks). -/

/-- A raw csv batch as a dataframe: its column names and its rows of
  possibly-NaN cells (cell contents are opaque here). -/
structure FileDf where
  cols : List String
  rows : List (List (Option Int))
deriving DecidableEq

/-- The expected column shape (sanity_check_module.py line 87). -/
def stdCols : List String := ["name", "time", "meas_sig_str", "status"]

/-- `df.isnull().values.any()`. -/
def hasNans (d : FileDf) : Bool := d.rows.any (fun row => row.any (fun c => c.isNone))

/-- `check_if_data_frame_is_valid` (lines 92-105); `none` models a frame
  that is python `None` (an unreadable csv). -/
def check_if_data_frame_is_valid (df : Option FileDf) : Except SErr Unit :=
  match df with
  | none => .error .dataFrameIsNone
  | some d =>
    if d.rows.length = 0 then .error .dataFrameIsEmpty
    else if hasNans d then .error .dataFrameContainsNans
    else .ok ()

/-- `check_file_df_content` (lines 67-89): validity failures are
  re-raised under file-level names, then the column shape is checked. -/
def check_file_df_content (df : Option FileDf) : Except SErr Unit :=
  match check_if_data_frame_is_valid df with
  | .error .dataFrameIsNone => .error .failedToReadCSV
  | .error .dataFrameIsEmpty => .error .dataFileIsDefective
  | .error .dataFrameContainsNans => .error .dataFileIsDefective
  | .error e => .error e
  | .ok _ =>
    match df with
    | some d => if d.cols = stdCols then .ok () else .error .fileIsNotCorrectDataFile
    | none => .error .failedToReadCSV

/-- The batch loop of `read_data` (lines 39-49): each file's frame is
  checked; only `FileIsNotCorrectDataFileError` is caught (the batch is
  dropped with a printed warning); any other exception propagates and
  aborts the run. -/
def readBatchesAux (acc : List FileDf) : List (Option FileDf) → Except SErr (List FileDf)
  | [] => .ok acc
  | f :: rest =>
    match check_file_df_content f with
    | .ok _ =>
      match f with
      | some d => readBatchesAux (acc ++ [d]) rest
      | none => .error .failedToReadCSV
    | .error .fileIsNotCorrectDataFile => readBatchesAux acc rest
    | .error e => .error e

/-- `read_data` lines 39-52: run the batch loop, then
  `pd.concat(file_dfs)` — which raises ValueError when the list is empty
  — then `check_if_data_frame_is_valid` on the merged frame. -/
def read_data_merge (files : List (Option FileDf)) : Except SErr FileDf :=
  match readBatchesAux [] files with
  | .error e => .error e
  | .ok [] => .error .valueError
  | .ok (d :: ds) =>
    let merged : FileDf := ⟨d.cols, ((d :: ds).map (·.rows)).flatten⟩
    match check_if_data_frame_is_valid (some merged) with
    | .error e => .error e
    | .ok _ => .ok merged

/-! ## Subject path precondition (sanity_check_module.py lines 49-64). -/

/-- `check_if_subject_num_matches_subject_files_path`: raises unless
  `subject_files_path[-len(str(subject_num)):] == str(subject_num)`.
  Paths are python strings, modelled as `List Char`; the negative slice
  clamps exactly like truncated `Nat` subtraction does. -/
def check_if_subject_num_matches_subject_files_path
    (subject_num : Nat) (subject_files_path : List Char) : Except SErr Unit :=
  let s := (Nat.repr subject_num).toList
  if subject_files_path.drop (subject_files_path.length - s.length) ≠ s then
    .error .subjectNumMismatch
  else .ok ()

deriving instance DecidableEq for Except

/-! ## Loader error policy (claim C7) -/

/-- A nonempty, NaN-free frame with wrong columns fails only the
  column-shape check. -/
lemma check_content_wrong_cols (d : FileDf) (hc : d.cols ≠ stdCols)
    (hr : d.rows ≠ []) (hn : hasNans d = false) :
    check_file_df_content (some d) = .error .fileIsNotCorrectDataFile := by
  have h1 : check_if_data_frame_is_valid (some d) = .ok () := by
    show (if d.rows.length = 0 then Except.error SErr.dataFrameIsEmpty
      else if hasNans d then Except.error SErr.dataFrameContainsNans
      else Except.ok ()) = Except.ok ()
    rw [if_neg (by simpa [List.length_eq_zero] using hr), if_neg (by simp [hn])]
  show (match check_if_data_frame_is_valid (some d) with
    | .error .dataFrameIsNone => Except.error SErr.failedToReadCSV
    | .error .dataFrameIsEmpty => Except.error SErr.dataFileIsDefective
    | .error .dataFrameContainsNans => Except.error SErr.dataFileIsDefective
    | .error e => Except.error e
    | .ok _ =>
      if d.cols = stdCols then Except.ok ()
      else Except.error SErr.fileIsNotCorrectDataFile) =
    Except.error SErr.fileIsNotCorrectDataFile
  rw [h1]
  simp [hc]

/-- An empty or NaN-carrying frame fails the validity check, re-raised as
  `DataFileIsDefectiveError`. -/
lemma check_content_invalid (d : FileDf) (h : d.rows = [] ∨ hasNans d = true) :
    check_file_df_content (some d) = .error .dataFileIsDefective := by
  have h1 : check_if_data_frame_is_valid (some d) = .error .dataFrameIsEmpty
      ∨ check_if_data_frame_is_valid (some d) = .error .dataFrameContainsNans := by
    show (if d.rows.length = 0 then Except.error SErr.dataFrameIsEmpty
      else if hasNans d then Except.error SErr.dataFrameContainsNans
      else Except.ok ()) = Except.error SErr.dataFrameIsEmpty ∨
      (if d.rows.length = 0 then Except.error SErr.dataFrameIsEmpty
      else if hasNans d then Except.error SErr.dataFrameContainsNans
      else Except.ok ()) = Except.error SErr.dataFrameContainsNans
    by_cases hr : d.rows.length = 0
    · left; rw [if_pos hr]
    · right
      have hnan : hasNans d = true := by
        rcases h with h | h
        · exact absurd (by simp [h]) hr
        · exact h
      rw [if_neg hr, if_pos (by simp [hnan])]
  show (match check_if_data_frame_is_valid (some d) with
    | .error .dataFrameIsNone => Except.error SErr.failedToReadCSV
    | .error .dataFrameIsEmpty => Except.error SErr.dataFileIsDefective
    | .error .dataFrameContainsNans => Except.error SErr.dataFileIsDefective
    | .error e => Except.error e
    | .ok _ =>
      if d.cols = stdCols then Except.ok ()
      else Except.error SErr.fileIsNotCorrectDataFile) =
    Except.error SErr.dataFileIsDefective
  rcases h1 with h1 | h1 <;> rw [h1]

/-- C7 (counterexample): the claim says a batch failing the validity
  check (here: containing a missing value) is dropped with a warning and
  the run continues with the surviving batches — which would make this
  two-batch run succeed with the second, fully valid batch. In the code
  only `FileIsNotCorrectDataFileError` is caught in the loop, so the NaN
  batch raises `DataFileIsDefectiveError` and the whole run aborts. -/
theorem invalid_batch_fatal_cex :
    read_data_merge [some ⟨stdCols, [[some 1, none, some 1, some 1]]⟩,
        some ⟨stdCols, [[some 1, some 2, some 3, some 4]]⟩] =
      .error .dataFileIsDefective
    ∧ read_data_merge [some ⟨stdCols, [[some 1, none, some 1, some 1]]⟩,
        some ⟨stdCols, [[some 1, some 2, some 3, some 4]]⟩] ≠
      .ok ⟨stdCols, [[some 1, some 2, some 3, some 4]]⟩ := by decide

/-- Unfolding equation for one step of the batch loop. -/
lemma readBatchesAux_cons (acc : List FileDf) (f : Option FileDf)
    (rest : List (Option FileDf)) :
    readBatchesAux acc (f :: rest) =
      match check_file_df_content f with
      | .ok _ =>
        match f with
        | some d => readBatchesAux (acc ++ [d]) rest
        | none => .error .failedToReadCSV
      | .error .fileIsNotCorrectDataFile => readBatchesAux acc rest
      | .error e => .error e := rfl

/-- C7 (amended): only the column-shape check is recoverable per batch: a
  nonempty NaN-free batch with wrong columns is dropped and the loop
  continues; an empty or NaN-carrying batch aborts the run with
  `DataFileIsDefectiveError`, an unreadable one with
  `FailedToReadCSVError`; and when zero batches survive the run aborts in
  `pd.concat` with ValueError, not with the Empty validation failure. -/
theorem read_data_batch_policy :
    (∀ (acc : List FileDf) (d : FileDf) (rest : List (Option FileDf)),
      d.cols ≠ stdCols → d.rows ≠ [] → hasNans d = false →
      readBatchesAux acc (some d :: rest) = readBatchesAux acc rest)
    ∧ (∀ (acc : List FileDf) (d : FileDf) (rest : List (Option FileDf)),
      d.rows = [] ∨ hasNans d = true →
      readBatchesAux acc (some d :: rest) = .error .dataFileIsDefective)
    ∧ (∀ (acc : List FileDf) (rest : List (Option FileDf)),
      readBatchesAux acc (none :: rest) = .error .failedToReadCSV)
    ∧ (∀ files : List (Option FileDf),
      readBatchesAux [] files = .ok [] → read_data_merge files = .error .valueError) := by
  refine ⟨?_, ?_, ?_, ?_⟩
  · intro acc d rest hc hr hn
    rw [readBatchesAux_cons, check_content_wrong_cols d hc hr hn]
  · intro acc d rest h
    rw [readBatchesAux_cons, check_content_invalid d h]
  · intro acc rest
    rfl
  · intro files h
    unfold read_data_merge
    rw [h]

/-- C7 (witness for the amended theorem): each conjunct instantiated at a
  concrete batch list. -/
theorem read_data_batch_policy_witness :
    (readBatchesAux [] [some ⟨["x"], [[some 5]]⟩, none] = readBatchesAux [] [none])
    ∧ (readBatchesAux [] [some ⟨stdCols, []⟩] = .error .dataFileIsDefective)
    ∧ (readBatchesAux [] [none] = .error .failedToReadCSV)
    ∧ (read_data_merge [some ⟨["x"], [[some 5]]⟩] = .error .valueError) :=
  ⟨read_data_batch_policy.1 [] ⟨["x"], [[some 5]]⟩ [none] (by decide) (by decide) (by decide),
   read_data_batch_policy.2.1 [] ⟨stdCols, []⟩ [] (Or.inl rfl),
   read_data_batch_policy.2.2.1 [] [],
   read_data_batch_policy.2.2.2 [some ⟨["x"], [[some 5]]⟩] (by decide)⟩

/-! ## Time normalization (claims C6 and C8) -/

/-- Parsing a series of well-formed timestamp strings succeeds and
  returns the (tz-naive) parsed instants. -/
lemma to_datetime_utc_map (us : List Int) :
    to_datetime_utc (us.map RawTimestamp.wellFormed) =
      .ok (us.map (fun u => ⟨u, none⟩)) := by
  unfold to_datetime_utc
  rw [if_pos (by simp [List.all_eq_true, parseOne])]
  congr 1
  induction us with
  | nil => rfl
  | cons u t ih => simpa [parseOne] using ih

/-- Localizing a series of naive timestamps to UTC succeeds elementwise. -/
lemma seriesApply_localize_utc (vs : List Int) :
    seriesApply (tz_localize .utc) (vs.map (fun u => (⟨u, none⟩ : PdTimestamp))) =
      .ok (vs.map (fun u => (⟨u, some .utc⟩ : PdTimestamp))) := by
  induction vs with
  | nil => rfl
  | cons v t ih =>
    simp only [seriesApply, List.map_cons, List.mapM_cons] at ih ⊢
    rw [ih]
    rfl

/-- Converting a series of UTC-aware timestamps to US/Pacific succeeds
  elementwise and shifts the wall clock by the fixed offset. -/
lemma seriesApply_convert_pacific (vs : List Int) :
    seriesApply (tz_convert .pacific) (vs.map (fun u => (⟨u, some .utc⟩ : PdTimestamp))) =
      .ok (vs.map pacificInstantOf) := by
  induction vs with
  | nil => rfl
  | cons v t ih =>
    simp only [seriesApply, List.map_cons, List.mapM_cons] at ih ⊢
    rw [ih]
    show Except.ok ((⟨v - 0 + -28800, some Tz.pacific⟩ : PdTimestamp) ::
        List.map pacificInstantOf t) =
      Except.ok (pacificInstantOf v :: List.map pacificInstantOf t)
    have hv : v - 0 + -28800 = v - 28800 := by ring
    rw [hv]
    rfl

/-- C6 (confirmed): on a series of well-formed `yyyy-mm-ddThh:mm:ssZ`
  timestamp strings, `convert_to_local_time` succeeds and returns, for
  each input, the parsed UTC instant converted to US/Pacific local time —
  a pure function of the instant. -/
theorem convert_to_local_time_ok (l : List RawTimestamp) (us : List Int)
    (h : l = us.map RawTimestamp.wellFormed) :
    convert_to_local_time l = .ok (us.map pacificInstantOf) := by
  subst h
  unfold convert_to_local_time
  rw [to_datetime_utc_map]
  show (match seriesApply (tz_localize .utc) (us.map (fun u => ⟨u, none⟩)) with
    | .error e => Except.error e
    | .ok dt2 =>
      match seriesApply (tz_convert .pacific) dt2 with
      | .error e => Except.error e
      | .ok dt3 => Except.ok dt3) = Except.ok (us.map pacificInstantOf)
  rw [seriesApply_localize_utc]
  show (match seriesApply (tz_convert .pacific)
      (us.map (fun u => ⟨u, some .utc⟩)) with
    | .error e => Except.error e
    | .ok dt3 => Except.ok dt3) = Except.ok (us.map pacificInstantOf)
  rw [seriesApply_convert_pacific]

/-- C6 (witness): a concrete one-element well-formed series. -/
theorem convert_to_local_time_ok_witness :
    ([RawTimestamp.wellFormed 1495756799] =
      ([1495756799] : List Int).map RawTimestamp.wellFormed)
    ∧ convert_to_local_time [RawTimestamp.wellFormed 1495756799] =
      .ok (([1495756799] : List Int).map pacificInstantOf) :=
  ⟨rfl, convert_to_local_time_ok _ [1495756799] rfl⟩

/-- C8 (confirmed): one unparseable timestamp string anywhere in the
  series makes the whole run fail with `DateTimeColumnIsDefectiveError`;
  no partial output is produced. -/
theorem unparseable_timestamp_fatal (l : List RawTimestamp)
    (h : RawTimestamp.malformed ∈ l) :
    convert_to_local_time l = .error .dateTimeColumnIsDefective := by
  have h1 : to_datetime_utc l = .error .valueError := by
    unfold to_datetime_utc
    rw [if_neg]
    intro hall
    rw [List.all_eq_true] at hall
    have h2 := hall _ h
    simp [parseOne] at h2
  unfold convert_to_local_time
  rw [h1]

/-- C8 (witness): a concrete series with one malformed element. -/
theorem unparseable_timestamp_fatal_witness :
    (RawTimestamp.malformed ∈ [RawTimestamp.wellFormed 3, RawTimestamp.malformed])
    ∧ convert_to_local_time [RawTimestamp.wellFormed 3, RawTimestamp.malformed] =
      .error .dateTimeColumnIsDefective :=
  ⟨by decide, unparseable_timestamp_fatal _ (by decide)⟩

/-! ## Subject path precondition (claim C10) -/

/-- C10 (confirmed): the guard only compares the trailing characters of
  the path with `str(subject_num)`, so any path ending in those digits
  passes; in particular subject 2 accepts a path ending in `Subject12`,
  another subject's directory. -/
theorem subject_path_suffix_check :
    (∀ (pre : List Char) (n : Nat),
      check_if_subject_num_matches_subject_files_path n (pre ++ (Nat.repr n).toList) = .ok ())
    ∧ check_if_subject_num_matches_subject_files_path 2 ("../data/Subject12".toList) = .ok () := by
  constructor
  · intro pre n
    have h : (pre ++ (Nat.repr n).toList).drop
        ((pre ++ (Nat.repr n).toList).length - (Nat.repr n).toList.length) =
        (Nat.repr n).toList := by
      rw [List.length_append, Nat.add_sub_cancel, List.drop_left]
    show (if (pre ++ (Nat.repr n).toList).drop
        ((pre ++ (Nat.repr n).toList).length - (Nat.repr n).toList.length) ≠
        (Nat.repr n).toList then Except.error SErr.subjectNumMismatch
      else Except.ok ()) = Except.ok ()
    rw [h]
    simp
  · decide

/-! ## Gap filler: counterexamples (claims C1 and C5) -/

/-- C1 (counterexample): the input has seconds 0, 1, 3 (one missing
  second), so `max_second = 3`; the re-indexing domain is
  `set(range(0, max_second))`, which excludes 3, and the returned dense
  frame stops at second 2 — the final recorded second is dropped. -/
theorem gapfill_drops_final_second_cex :
    fill_missing_data [⟨10, 5, 0⟩, ⟨11, 7, 0⟩, ⟨13, 9, 0⟩] =
      .ok [(0, ⟨some 10, some 5, some 0⟩), (1, ⟨some 11, some 7, some 0⟩),
        (2, ⟨some 12, some 7, none⟩)]
    ∧ maxSecond [⟨10, 5, 0⟩, ⟨11, 7, 0⟩, ⟨13, 9, 0⟩] = 3
    ∧ ¬ ((3 : Int) ∈ (fillResult [⟨10, 5, 0⟩, ⟨11, 7, 0⟩, ⟨13, 9, 0⟩]).map Prod.fst) := by
  decide

/-- C5 (counterexample): seconds 1-4 are missing and only one measured
  second precedes the block, so there is no preceding measured block of
  sufficient length; the claim says every row of such a block stays
  unfilled. In the code the copy sources are labels `-3, -2, -1, 0`:
  the in-range label 0 is measured, so the last row of the block *is*
  filled (value 9 copied from second 0) while the rest stay unknown. The
  operation still completes without error. -/
theorem insufficient_history_partial_fill_cex :
    fill_missing_data [⟨0, 9, 0⟩, ⟨5, 7, 0⟩] =
      .ok [(0, ⟨some 0, some 9, some 0⟩), (1, ⟨some 1, none, none⟩),
        (2, ⟨some 2, none, none⟩), (3, ⟨some 3, none, none⟩),
        (4, ⟨some 4, some 9, none⟩)]
    ∧ missingB [⟨0, 9, 0⟩, ⟨5, 7, 0⟩] 4 = true
    ∧ resultSigVal [⟨0, 9, 0⟩, ⟨5, 7, 0⟩] 4 = some 9
    ∧ sourceAt [⟨0, 9, 0⟩, ⟨5, 7, 0⟩] 4 = .interpolated := by
  decide

/-! ## Day partitioner: counterexample (claim C3) -/

/-- C3 (counterexample): a recording starting exactly at noon and ending
  exactly 24 hours later. The while loop stops with
  `next_day_onset == end_of_time`, every assignment mask requires
  `date_time < next_day_onset`, and the final record — which sits exactly
  on the final 24-hour boundary — receives no day number (NaN). -/
theorem day_boundary_record_unassigned_cex :
    divide_to_24_hour_periods [43200, 129600] = [some 1, none]
    ∧ (divide_to_24_hour_periods [43200, 129600]).getD 1 none = none := by
  decide

/-! ## Block detection: structure of the cumulative-sum block ids -/

lemma newcol_eq_iff (m : Nat → Bool) (x y : Nat) :
    newcol m x = newcol m y ↔ m x = m y := by
  cases hx : m x <;> cases hy : m y <;> simp [newcol, hx, hy]

lemma blockId_le_succ (m : Nat → Bool) (s : Nat) :
    blockId m s ≤ blockId m (s + 1) := by
  show blockId m s ≤
    (if newcol m (s + 1) = newcol m s then blockId m s else blockId m s + 1)
  split <;> omega

lemma blockId_mono (m : Nat → Bool) {s t : Nat} (h : s ≤ t) :
    blockId m s ≤ blockId m t := by
  induction t with
  | zero =>
    have h0 : s = 0 := Nat.le_zero.mp h
    subst h0
    exact le_refl _
  | succ n ih =>
    rcases Nat.eq_or_lt_of_le h with rfl | hlt
    · exact le_refl _
    · exact le_trans (ih (Nat.lt_succ_iff.mp hlt)) (blockId_le_succ m n)

lemma blockId_succ_eq (m : Nat → Bool) (s : Nat) (h : m (s + 1) = m s) :
    blockId m (s + 1) = blockId m s := by
  show (if newcol m (s + 1) = newcol m s then blockId m s else blockId m s + 1) =
    blockId m s
  rw [if_pos ((newcol_eq_iff m _ _).mpr h)]

lemma blockId_succ_ne (m : Nat → Bool) (s : Nat) (h : m (s + 1) ≠ m s) :
    blockId m (s + 1) = blockId m s + 1 := by
  show (if newcol m (s + 1) = newcol m s then blockId m s else blockId m s + 1) =
    blockId m s + 1
  rw [if_neg (fun hc => h ((newcol_eq_iff m _ _).mp hc))]

/-- The block id is constant along a run of missing positions. -/
lemma blockId_const_of_run (m : Nat → Bool) (a L : Nat)
    (hrun : ∀ k, k < L → m (a + k) = true) :
    ∀ k, k < L → blockId m (a + k) = blockId m a := by
  intro k
  induction k with
  | zero => intro _; rfl
  | succ j ih =>
    intro hk
    have h1 : m (a + j + 1) = m (a + j) := by
      have e1 : m (a + (j + 1)) = true := hrun (j + 1) hk
      have e2 : m (a + j) = true := hrun j (by omega)
      rw [show a + j + 1 = a + (j + 1) from rfl, e1, e2]
    have h2 : blockId m (a + (j + 1)) = blockId m (a + j) :=
      blockId_succ_eq m (a + j) h1
    rw [h2]
    exact ih (by omega)

/-- Positions share the block id of a missing run exactly when they lie
  inside the run: this is the change-point grouping of the source. -/
lemma blockId_eq_iff_mem_run (m : Nat → Bool) (mx a L : Nat)
    (hL : 0 < L) (hdom : a + L ≤ mx)
    (hrun : ∀ k, k < L → m (a + k) = true)
    (hleft : a = 0 ∨ m (a - 1) = false)
    (hright : a + L = mx ∨ m (a + L) = false)
    (s : Nat) (hs1 : a ≤ s) (hs2 : s < a + L) :
    ∀ t, t < mx → (blockId m t = blockId m s ↔ (a ≤ t ∧ t < a + L)) := by
  have hsa : blockId m s = blockId m a := by
    have h := blockId_const_of_run m a L hrun (s - a) (by omega)
    rw [show a + (s - a) = s by omega] at h
    exact h
  intro t ht
  constructor
  · intro heq
    have hta : a ≤ t := by
      by_contra hcon
      have hlt : t < a := by omega
      have ha0 : a ≠ 0 := by omega
      have hm : m (a - 1) = false := hleft.resolve_left ha0
      have hstep : blockId m a = blockId m (a - 1) + 1 := by
        have hne : m (a - 1 + 1) ≠ m (a - 1) := by
          have e1 : m a = true := by
            have e := hrun 0 hL
            rw [Nat.add_zero] at e
            exact e
          rw [show a - 1 + 1 = a by omega, e1, hm]
          simp
        have h := blockId_succ_ne m (a - 1) hne
        rw [show a - 1 + 1 = a by omega] at h
        exact h
      have h1 : blockId m t ≤ blockId m (a - 1) := blockId_mono m (by omega)
      omega
    have htb : t < a + L := by
      by_contra hcon
      have hge : a + L ≤ t := by omega
      have hmr : m (a + L) = false := by
        rcases hright with hr | hr
        · exfalso; omega
        · exact hr
      have hma : m (a + L - 1) = true := by
        have h := hrun (L - 1) (by omega)
        rw [show a + (L - 1) = a + L - 1 by omega] at h
        exact h
      have hstep : blockId m (a + L) = blockId m (a + L - 1) + 1 := by
        have hne : m (a + L - 1 + 1) ≠ m (a + L - 1) := by
          rw [show a + L - 1 + 1 = a + L by omega, hmr, hma]
          simp
        have h := blockId_succ_ne m (a + L - 1) hne
        rw [show a + L - 1 + 1 = a + L by omega] at h
        exact h
      have hsl : blockId m (a + L - 1) = blockId m a := by
        have h := blockId_const_of_run m a L hrun (L - 1) (by omega)
        rw [show a + (L - 1) = a + L - 1 by omega] at h
        exact h
      have h1 : blockId m (a + L) ≤ blockId m t := blockId_mono m hge
      omega
    exact ⟨hta, htb⟩
  · rintro ⟨h1, h2⟩
    have h := blockId_const_of_run m a L hrun (t - a) (by omega)
    rw [show a + (t - a) = t by omega] at h
    rw [h, hsa]

/-- Counting an integer interval inside `range mx`. -/
lemma countP_range_interval (a L : Nat) :
    ∀ mx, (List.range mx).countP (fun t => decide (a ≤ t ∧ t < a + L)) =
      min mx (a + L) - min mx a := by
  intro mx
  induction mx with
  | zero => simp
  | succ n ih =>
    rw [List.range_succ, List.countP_append, ih]
    by_cases h : a ≤ n ∧ n < a + L
    · rw [List.countP_cons, List.countP_nil, decide_eq_true h,
        show (if (true = true) then 1 else 0) = 1 from rfl]
      omega
    · rw [List.countP_cons, List.countP_nil, decide_eq_false h,
        show (if (false = true) then 1 else 0) = 0 from rfl]
      omega

/-- The `(block, newcol)` group of a position inside a missing run of
  length `L` has exactly `L` members. -/
lemma blockLen_of_run (m : Nat → Bool) (mx a L : Nat)
    (hL : 0 < L) (hdom : a + L ≤ mx)
    (hrun : ∀ k, k < L → m (a + k) = true)
    (hleft : a = 0 ∨ m (a - 1) = false)
    (hright : a + L = mx ∨ m (a + L) = false)
    (s : Nat) (hs1 : a ≤ s) (hs2 : s < a + L) :
    blockLen m mx s = L := by
  unfold blockLen
  have hiff := blockId_eq_iff_mem_run m mx a L hL hdom hrun hleft hright s hs1 hs2
  have hcong : ∀ t ∈ List.range mx,
      ((blockId m t == blockId m s) = true ↔
        decide (a ≤ t ∧ t < a + L) = true) := by
    intro t ht
    rw [List.mem_range] at ht
    simp only [beq_iff_eq, decide_eq_true_eq]
    exact hiff t ht
  rw [List.countP_congr hcong, countP_range_interval]
  omega

/-! ## Plumbing: from the dense frame back to the filled result -/

lemma secsOf_length (df : List InRow) : (secsOf df).length = df.length := by
  simp [secsOf, num_seconds]

lemma maxSecondN_cast (df : List InRow) (h : 0 < maxSecondN df) :
    (Int.ofNat (maxSecondN df)) = maxSecond df := by
  have hdef : maxSecondN df = (maxSecond df).toNat := rfl
  have h0 : 0 ≤ maxSecond df := by omega
  rw [hdef]
  exact Int.toNat_of_nonneg h0

lemma mem_missingList (df : List InRow) (s : Nat)
    (h1 : missingB df s = true) (h2 : s < maxSecondN df) :
    s ∈ missingList df := by
  unfold missingList
  rw [List.mem_filter]
  exact ⟨List.mem_range.mpr h2, h1⟩

lemma missingList_ne_nil (df : List InRow) (s : Nat)
    (h1 : missingB df s = true) (h2 : s < maxSecondN df) :
    missingList df ≠ [] :=
  List.ne_nil_of_mem (mem_missingList df s h1 h2)

lemma maxSecondN_pos_of_missing (df : List InRow) (h : missingList df ≠ []) :
    0 < maxSecondN df := by
  obtain ⟨s, hs⟩ := List.exists_mem_of_ne_nil _ h
  unfold missingList at hs
  rw [List.mem_filter, List.mem_range] at hs
  omega

lemma fillResult_ne_nil_of_missing (df : List InRow) (h : missingList df ≠ []) :
    fillResult df ≠ [] := by
  unfold fillResult
  rw [if_neg h]
  intro hc
  have hlen := congrArg List.length hc
  rw [List.length_map, List.length_range, List.length_nil] at hlen
  have := maxSecondN_pos_of_missing df h
  omega

lemma fillResult_ne_nil (df : List InRow) (hne : df ≠ []) :
    fillResult df ≠ [] := by
  by_cases h : missingList df = []
  · unfold fillResult
    rw [if_pos h]
    intro hc
    have hlen := congrArg List.length hc
    rw [List.length_zip, List.length_map, secsOf_length, Nat.min_self] at hlen
    exact hne (List.length_eq_zero.mp hlen)
  · exact fillResult_ne_nil_of_missing df h

/-- The closing validity check of `fill_missing_data` never aborts a
  nonempty result: a NaN failure is swallowed. -/
lemma fill_ok_of_ne_nil (df : List InRow) (h : fillResult df ≠ []) :
    fill_missing_data df = .ok (fillResult df) := by
  have hck : checkValidDense (fillResult df) = .error .dataFrameContainsNans
      ∨ checkValidDense (fillResult df) = .ok () := by
    unfold checkValidDense
    rw [if_neg (by simpa [List.length_eq_zero] using h)]
    by_cases hn : denseHasNans (fillResult df) = true
    · left; rw [if_pos hn]
    · right; rw [if_neg hn]
  show (match checkValidDense (fillResult df) with
    | .error .dataFrameContainsNans => Except.ok (fillResult df)
    | .error e => Except.error e
    | .ok _ => Except.ok (fillResult df)) = Except.ok (fillResult df)
  rcases hck with hck | hck <;> rw [hck]

lemma fillResult_getD_of_missing (df : List InRow) (s : Nat)
    (hmiss : missingList df ≠ []) (hs : s < maxSecondN df) :
    (fillResult df).getD s (0, ⟨none, none, none⟩) = (Int.ofNat s, denseRowAt df s) := by
  unfold fillResult
  rw [if_neg hmiss]
  simp [List.getD_eq_getElem?_getD, List.getElem?_map, List.getElem?_range, hs]

lemma resultSigVal_eq_fillSig (df : List InRow) (s : Nat)
    (hmiss : missingList df ≠ []) (hs : s < maxSecondN df) :
    resultSigVal df s = fillSig df s := by
  unfold resultSigVal
  rw [fillResult_getD_of_missing df s hmiss hs]
  rfl

lemma contains_iff_mem_int (l : List Int) (i : Int) :
    l.contains i = true ↔ i ∈ l := by
  induction l with
  | nil => simp
  | cons x xs ih => simp [List.contains_cons, ih]

lemma lookupRow_isSome_of_mem (df : List InRow) (i : Int) (h : i ∈ secsOf df) :
    (lookupRow df i).isSome = true := by
  unfold lookupRow
  rw [Option.isSome_map']
  rw [List.find?_isSome]
  obtain ⟨n, hn, hEq⟩ := List.mem_iff_getElem.mp h
  rw [secsOf_length] at hn
  have hz : n < ((secsOf df).zip df).length := by
    rw [List.length_zip, secsOf_length]
    omega
  refine ⟨((secsOf df).zip df)[n], List.getElem_mem hz, ?_⟩
  rw [List.getElem_zip]
  simpa using hEq

lemma origSigAt_isSome (df : List InRow) (s : Nat)
    (h : missingB df s = false) :
    (origSigAt df s).isSome = true := by
  have hmeas : measuredAt df s = true := by
    unfold missingB at h
    simpa using h
  have hmem : Int.ofNat s ∈ secsOf df := (contains_iff_mem_int _ _).mp hmeas
  have hl := lookupRow_isSome_of_mem df _ hmem
  unfold origSigAt reindexRow
  obtain ⟨r, hr⟩ := Option.isSome_iff_exists.mp hl
  rw [hr]
  rfl

/-- Evaluation of the fill at a position of a short missing run: the
  copy-source label is `s - L`. -/
lemma fillSig_short_run (df : List InRow) (a L : Nat)
    (hL : 0 < L) (h300 : L ≤ 300) (hdom : a + L ≤ maxSecondN df)
    (hrun : ∀ k, k < L → missingB df (a + k) = true)
    (hleft : a = 0 ∨ missingB df (a - 1) = false)
    (hright : a + L = maxSecondN df ∨ missingB df (a + L) = false)
    (k : Nat) (hk : k < L) :
    fillSig df (a + k) = sigLookup df (Int.ofNat (a + k) - Int.ofNat L) := by
  have hmB : missingB df (a + k) = true := hrun k hk
  have hlen : blockLen (missingB df) (maxSecondN df) (a + k) = L :=
    blockLen_of_run _ _ a L hL hdom hrun hleft hright (a + k) (by omega) (by omega)
  unfold fillSig
  rw [if_pos hmB]
  show (if blockLen (missingB df) (maxSecondN df) (a + k) ≤ 300 then
      sigLookup df (Int.ofNat (a + k) -
        Int.ofNat (blockLen (missingB df) (maxSecondN df) (a + k)))
    else none) = sigLookup df (Int.ofNat (a + k) - Int.ofNat L)
  rw [hlen, if_pos h300]

/-- Evaluation of the fill at a position of a long missing run. -/
lemma fillSig_long_run (df : List InRow) (a L : Nat)
    (hL : 0 < L) (h300 : 300 < L) (hdom : a + L ≤ maxSecondN df)
    (hrun : ∀ k, k < L → missingB df (a + k) = true)
    (hleft : a = 0 ∨ missingB df (a - 1) = false)
    (hright : a + L = maxSecondN df ∨ missingB df (a + L) = false)
    (k : Nat) (hk : k < L) :
    fillSig df (a + k) = none := by
  have hmB : missingB df (a + k) = true := hrun k hk
  have hlen : blockLen (missingB df) (maxSecondN df) (a + k) = L :=
    blockLen_of_run _ _ a L (by omega) hdom hrun hleft hright (a + k) (by omega) (by omega)
  unfold fillSig
  rw [if_pos hmB]
  show (if blockLen (missingB df) (maxSecondN df) (a + k) ≤ 300 then
      sigLookup df (Int.ofNat (a + k) -
        Int.ofNat (blockLen (missingB df) (maxSecondN df) (a + k)))
    else none) = none
  rw [hlen, if_neg (by omega)]

/-- C2 (confirmed): a missing block of length `L ≤ 300` whose preceding
  `L` seconds are all measured (in particular, whenever the measured
  block immediately before it has length `≥ L`) is filled
  position-for-position from those seconds: the filled value at offset
  `k` equals the dense signal at position `a - L + k`, which is a
  measured (present) value, and the row's provenance is `interpolated`. -/
theorem fill_copies_preceding_block (df : List InRow) (a L : Nat)
    (hL : 0 < L) (h300 : L ≤ 300) (hLa : L ≤ a)
    (hdom : a + L ≤ maxSecondN df)
    (hrun : ∀ k, k < L → missingB df (a + k) = true)
    (hright : a + L = maxSecondN df ∨ missingB df (a + L) = false)
    (hprec : ∀ j, j < L → missingB df (a - L + j) = false) :
    ∀ k, k < L → resultSigVal df (a + k) = origSigAt df (a - L + k)
      ∧ (origSigAt df (a - L + k)).isSome = true
      ∧ sourceAt df (a + k) = Source.interpolated := by
  have hleft : a = 0 ∨ missingB df (a - 1) = false := by
    right
    have h := hprec (L - 1) (by omega)
    rw [show a - L + (L - 1) = a - 1 by omega] at h
    exact h
  intro k hk
  have hmB : missingB df (a + k) = true := hrun k hk
  have hsn : a + k < maxSecondN df := by omega
  have hmiss : missingList df ≠ [] := missingList_ne_nil df (a + k) hmB hsn
  have hfill := fillSig_short_run df a L hL h300 hdom hrun hleft hright k hk
  have hmx0 : 0 < maxSecondN df := by omega
  have hcast : (Int.ofNat (maxSecondN df)) = maxSecond df := maxSecondN_cast df hmx0
  have harg : Int.ofNat (a + k) - Int.ofNat L = Int.ofNat (a - L + k) := by
    simp only [Int.ofNat_eq_coe]
    omega
  have hcond : 0 ≤ Int.ofNat (a - L + k) ∧ Int.ofNat (a - L + k) < maxSecond df := by
    simp only [Int.ofNat_eq_coe] at hcast ⊢
    constructor <;> omega
  have hlook : sigLookup df (Int.ofNat (a + k) - Int.ofNat L) = origSigAt df (a - L + k) := by
    unfold sigLookup origSigAt
    rw [harg, if_pos hcond]
  have hSome : (origSigAt df (a - L + k)).isSome = true :=
    origSigAt_isSome df (a - L + k) (hprec k hk)
  refine ⟨?_, hSome, ?_⟩
  · rw [resultSigVal_eq_fillSig df (a + k) hmiss hsn, hfill, hlook]
  · unfold sourceAt
    rw [if_neg (by simp [hmB]), if_pos (by rw [hfill, hlook]; exact hSome)]

/-- C2 (witness): seconds 0, 1, 3, 4 present, second 2 missing; the gap
  of length 1 is copied from second 1. -/
theorem fill_copies_preceding_block_witness :
    resultSigVal [⟨10, 5, 0⟩, ⟨11, 7, 0⟩, ⟨13, 9, 0⟩, ⟨14, 11, 0⟩] 2 =
      origSigAt [⟨10, 5, 0⟩, ⟨11, 7, 0⟩, ⟨13, 9, 0⟩, ⟨14, 11, 0⟩] 1
    ∧ (origSigAt [⟨10, 5, 0⟩, ⟨11, 7, 0⟩, ⟨13, 9, 0⟩, ⟨14, 11, 0⟩] 1).isSome = true
    ∧ sourceAt [⟨10, 5, 0⟩, ⟨11, 7, 0⟩, ⟨13, 9, 0⟩, ⟨14, 11, 0⟩] 2 =
      Source.interpolated :=
  fill_copies_preceding_block [⟨10, 5, 0⟩, ⟨11, 7, 0⟩, ⟨13, 9, 0⟩, ⟨14, 11, 0⟩] 2 1
    (by decide) (by decide) (by decide) (by decide) (by decide)
    (Or.inr (by decide)) (by decide) 0 (by decide)

/-- C4 (confirmed): a missing block of length `L > 300` is left entirely
  unset (`unknown`), measured positions are untouched, and the run does
  not fail: `fill_missing_data` returns the frame even though it still
  contains NaN signal values. -/
theorem long_gap_left_unknown (df : List InRow) (a L : Nat)
    (hL : 0 < L) (h300 : 300 < L) (hdom : a + L ≤ maxSecondN df)
    (hrun : ∀ k, k < L → missingB df (a + k) = true)
    (hleft : a = 0 ∨ missingB df (a - 1) = false)
    (hright : a + L = maxSecondN df ∨ missingB df (a + L) = false) :
    (∀ k, k < L → resultSigVal df (a + k) = none ∧ sourceAt df (a + k) = Source.unknown)
    ∧ (∀ s, s < maxSecondN df → missingB df s = false →
        resultSigVal df s = origSigAt df s)
    ∧ fill_missing_data df = .ok (fillResult df) := by
  have hm0 : missingB df a = true := by
    have h := hrun 0 hL
    rw [Nat.add_zero] at h
    exact h
  have hmiss : missingList df ≠ [] := missingList_ne_nil df a hm0 (by omega)
  refine ⟨?_, ?_, fill_ok_of_ne_nil df (fillResult_ne_nil_of_missing df hmiss)⟩
  · intro k hk
    have hfill := fillSig_long_run df a L hL h300 hdom hrun hleft hright k hk
    constructor
    · rw [resultSigVal_eq_fillSig df (a + k) hmiss (by omega), hfill]
    · unfold sourceAt
      rw [if_neg (by simp [hrun k hk]), if_neg (by simp [hfill])]
  · intro s hs hsm
    have hf : fillSig df s = (reindexRow df (Int.ofNat s)).meas_sig_str := by
      unfold fillSig
      rw [if_neg (by simp [hsm])]
    rw [resultSigVal_eq_fillSig df s hmiss hs, hf]
    rfl

set_option maxRecDepth 100000 in
/-- C4 (witness): a 301-second gap between seconds 0 and 302 stays
  entirely unknown and the run still succeeds. -/
theorem long_gap_left_unknown_witness :
    (resultSigVal [⟨0, 9, 0⟩, ⟨302, 7, 0⟩] 151 = none
      ∧ sourceAt [⟨0, 9, 0⟩, ⟨302, 7, 0⟩] 151 = Source.unknown)
    ∧ fill_missing_data [⟨0, 9, 0⟩, ⟨302, 7, 0⟩] =
      .ok (fillResult [⟨0, 9, 0⟩, ⟨302, 7, 0⟩]) := by
  have h := long_gap_left_unknown [⟨0, 9, 0⟩, ⟨302, 7, 0⟩] 1 301
    (by decide) (by decide) (by decide) (by decide)
    (Or.inr (by decide)) (Or.inl (by decide))
  exact ⟨h.1 150 (by decide), h.2.2⟩

/-- C5 (amended): a missing block of length `L ≤ 300` that starts before
  `L` seconds of history exist (so there is no preceding measured block
  of sufficient length — a block literally at second 0 cannot occur,
  since second 0 always holds the first record) never aborts the run:
  out-of-range copy-source labels behave as missing values. Each row of
  the block whose copy source `s - L` falls before the start of the
  timeline is left unset; a row whose source is in range receives the
  dense signal cell at `s - L` (which may itself be NaN or a measured
  value). -/
theorem insufficient_history_gap (df : List InRow) (a L : Nat)
    (hL : 0 < L) (h300 : L ≤ 300) (haL : a < L)
    (hdom : a + L ≤ maxSecondN df)
    (hrun : ∀ k, k < L → missingB df (a + k) = true)
    (hleft : a = 0 ∨ missingB df (a - 1) = false)
    (hright : a + L = maxSecondN df ∨ missingB df (a + L) = false) :
    fill_missing_data df = .ok (fillResult df)
    ∧ ∀ k, k < L → resultSigVal df (a + k) =
        (if a + k < L then none else origSigAt df (a + k - L)) := by
  have hm0 : missingB df a = true := by
    have h := hrun 0 hL
    rw [Nat.add_zero] at h
    exact h
  have hmiss : missingList df ≠ [] := missingList_ne_nil df a hm0 (by omega)
  refine ⟨fill_ok_of_ne_nil df (fillResult_ne_nil_of_missing df hmiss), ?_⟩
  intro k hk
  have hfill := fillSig_short_run df a L hL h300 hdom hrun hleft hright k hk
  rw [resultSigVal_eq_fillSig df (a + k) hmiss (by omega), hfill]
  by_cases hneg : a + k < L
  · rw [if_pos hneg]
    unfold sigLookup
    rw [if_neg (by rintro ⟨h1, h2⟩; simp only [Int.ofNat_eq_coe] at h1; omega)]
  · rw [if_neg hneg]
    have hmx0 : 0 < maxSecondN df := by omega
    have hcast : (Int.ofNat (maxSecondN df)) = maxSecond df := maxSecondN_cast df hmx0
    have harg : Int.ofNat (a + k) - Int.ofNat L = Int.ofNat (a + k - L) := by
      simp only [Int.ofNat_eq_coe]
      omega
    have hcond : 0 ≤ Int.ofNat (a + k - L) ∧ Int.ofNat (a + k - L) < maxSecond df := by
      simp only [Int.ofNat_eq_coe] at hcast ⊢
      constructor <;> omega
    unfold sigLookup origSigAt
    rw [harg, if_pos hcond]

/-- C5 (witness for the amended theorem): block of length 4 starting at
  second 1; rows 1-3 have out-of-range sources and stay unset, row 4
  copies the dense cell at second 0. -/
theorem insufficient_history_gap_witness :
    fill_missing_data [⟨0, 9, 0⟩, ⟨5, 7, 0⟩] =
      .ok (fillResult [⟨0, 9, 0⟩, ⟨5, 7, 0⟩])
    ∧ resultSigVal [⟨0, 9, 0⟩, ⟨5, 7, 0⟩] 2 = none
    ∧ resultSigVal [⟨0, 9, 0⟩, ⟨5, 7, 0⟩] 4 =
      origSigAt [⟨0, 9, 0⟩, ⟨5, 7, 0⟩] 0 := by
  have h := insufficient_history_gap [⟨0, 9, 0⟩, ⟨5, 7, 0⟩] 1 4
    (by decide) (by decide) (by decide) (by decide) (by decide)
    (Or.inr (by decide)) (Or.inl (by decide))
  refine ⟨h.1, ?_, ?_⟩
  · have := h.2 1 (by decide)
    simpa using this
  · have := h.2 3 (by decide)
    simpa using this

/-! ## Elapsed-seconds index of the filled frame (claim C1) -/

lemma minList_le : ∀ (l : List Int) (x : Int), x ∈ l → minList l ≤ x
  | [], _, h => absurd h (List.not_mem_nil _)
  | [y], x, h => by
    have hx : x = y := by simpa using h
    subst hx
    exact le_refl _
  | y :: z :: t, x, h => by
    rcases List.mem_cons.mp h with rfl | h2
    · exact min_le_left _ _
    · exact le_trans (min_le_right _ _) (minList_le (z :: t) x h2)

lemma le_maxList : ∀ (l : List Int) (x : Int), x ∈ l → x ≤ maxList l
  | [], _, h => absurd h (List.not_mem_nil _)
  | [y], x, h => by
    have hx : x = y := by simpa using h
    subst hx
    exact le_refl _
  | y :: z :: t, x, h => by
    rcases List.mem_cons.mp h with rfl | h2
    · exact le_max_left _ _
    · exact le_trans (le_maxList (z :: t) x h2) (le_max_right _ _)

lemma minList_mem : ∀ (l : List Int), l ≠ [] → minList l ∈ l
  | [], h => absurd rfl h
  | [y], _ => by simp [minList]
  | y :: z :: t, _ => by
    show min y (minList (z :: t)) ∈ y :: z :: t
    rcases min_choice y (minList (z :: t)) with h | h
    · rw [h]; exact List.mem_cons_self _ _
    · rw [h]; exact List.mem_cons_of_mem _ (minList_mem (z :: t) (by simp))

lemma maxList_mem : ∀ (l : List Int), l ≠ [] → maxList l ∈ l
  | [], h => absurd rfl h
  | [y], _ => by simp [maxList]
  | y :: z :: t, _ => by
    show max y (maxList (z :: t)) ∈ y :: z :: t
    rcases max_choice y (maxList (z :: t)) with h | h
    · rw [h]; exact List.mem_cons_self _ _
    · rw [h]; exact List.mem_cons_of_mem _ (maxList_mem (z :: t) (by simp))

lemma secsOf_ne_nil (df : List InRow) (hne : df ≠ []) : secsOf df ≠ [] := by
  intro hc
  have := congrArg List.length hc
  rw [secsOf_length, List.length_nil] at this
  exact hne (List.length_eq_zero.mp this)

/-- Every elapsed second is nonnegative (each timestamp is at least the
  minimum one). -/
lemma secs_nonneg (df : List InRow) (i : Int) (h : i ∈ secsOf df) : 0 ≤ i := by
  unfold secsOf num_seconds at h
  obtain ⟨t, ht, rfl⟩ := List.mem_map.mp h
  have := minList_le _ t ht
  omega

lemma zero_mem_secs (df : List InRow) (hne : df ≠ []) : (0 : Int) ∈ secsOf df := by
  unfold secsOf num_seconds
  have hdts : df.map (·.date_time) ≠ [] := by
    intro hc
    have := congrArg List.length hc
    rw [List.length_map, List.length_nil] at this
    exact hne (List.length_eq_zero.mp this)
  refine List.mem_map.mpr ⟨minList (df.map (·.date_time)), minList_mem _ hdts, ?_⟩
  omega

lemma maxSecond_nonneg (df : List InRow) (hne : df ≠ []) : 0 ≤ maxSecond df :=
  le_maxList _ 0 (zero_mem_secs df hne)

lemma maxSecond_mem (df : List InRow) (hne : df ≠ []) : maxSecond df ∈ secsOf df :=
  maxList_mem _ (secsOf_ne_nil df hne)

/-- C1 (amended): on the fast path (no second of `[0, max_second)` is
  missing) the returned index is exactly `[0, max_second]`, each value
  once; but whenever at least one second is missing, the re-indexed frame
  is built over `set(range(0, max_second))` and the returned index is
  exactly `[0, max_second - 1]` — the final recorded second is dropped.
  In both cases the index is strictly increasing (no duplicates). -/
theorem gapfill_index_range (df : List InRow) (hne : df ≠ [])
    (hsort : List.Pairwise (· < ·) (df.map (·.date_time))) :
    fill_missing_data df = .ok (fillResult df)
    ∧ List.Pairwise (· < ·) ((fillResult df).map Prod.fst)
    ∧ (missingList df = [] →
        ∀ i : Int, (i ∈ (fillResult df).map Prod.fst ↔ 0 ≤ i ∧ i ≤ maxSecond df))
    ∧ (missingList df ≠ [] →
        ∀ i : Int, (i ∈ (fillResult df).map Prod.fst ↔ 0 ≤ i ∧ i < maxSecond df)) := by
  have hsecs : List.Pairwise (· < ·) (secsOf df) := by
    unfold secsOf num_seconds
    rw [List.pairwise_map]
    exact hsort.imp (by intro a b h; omega)
  have hfast : missingList df = [] →
      (fillResult df).map Prod.fst = secsOf df := by
    intro h
    unfold fillResult
    rw [if_pos h]
    exact List.map_fst_zip _ _ (by rw [secsOf_length, List.length_map])
  have hslow : missingList df ≠ [] →
      (fillResult df).map Prod.fst = (List.range (maxSecondN df)).map Int.ofNat := by
    intro h
    unfold fillResult
    rw [if_neg h, List.map_map]
    rfl
  refine ⟨fill_ok_of_ne_nil df (fillResult_ne_nil df hne), ?_, ?_, ?_⟩
  · by_cases h : missingList df = []
    · rw [hfast h]
      exact hsecs
    · rw [hslow h, List.pairwise_map]
      exact (List.pairwise_lt_range _).imp (by intro a b hab; exact Int.ofNat_lt.mpr hab)
  · intro h i
    rw [hfast h]
    constructor
    · intro hi
      exact ⟨secs_nonneg df i hi, le_maxList _ i hi⟩
    · rintro ⟨h0, hmax⟩
      rcases lt_or_eq_of_le hmax with hlt | heq
      · have hsN : i.toNat < maxSecondN df := by
          have hdef : maxSecondN df = (maxSecond df).toNat := rfl
          omega
        have hms : missingB df i.toNat = false := by
          have hall := List.filter_eq_nil_iff.mp h
          have := hall i.toNat (List.mem_range.mpr hsN)
          simpa using this
        have hmeas : measuredAt df i.toNat = true := by
          unfold missingB at hms
          simpa using hms
        have := (contains_iff_mem_int _ _).mp hmeas
        rwa [show Int.ofNat i.toNat = i by simp only [Int.ofNat_eq_coe]; omega] at this
      · rw [heq]
        exact maxSecond_mem df hne
  · intro h i
    rw [hslow h]
    have hmx0 : 0 < maxSecondN df := maxSecondN_pos_of_missing df h
    have hcast := maxSecondN_cast df hmx0
    constructor
    · intro hi
      obtain ⟨s, hs, rfl⟩ := List.mem_map.mp hi
      rw [List.mem_range] at hs
      simp only [Int.ofNat_eq_coe] at hcast ⊢
      constructor <;> omega
    · rintro ⟨h0, hmax⟩
      refine List.mem_map.mpr ⟨i.toNat, List.mem_range.mpr ?_, ?_⟩
      · simp only [Int.ofNat_eq_coe] at hcast
        omega
      · simp only [Int.ofNat_eq_coe]
        omega

/-- C1 (witness for the amended theorem): the three-record input with one
  missing second; the returned index covers `0, 1, 2` but not the maximum
  second 3. -/
theorem gapfill_index_range_witness :
    fill_missing_data [⟨10, 5, 0⟩, ⟨11, 7, 0⟩, ⟨13, 9, 0⟩] =
      .ok (fillResult [⟨10, 5, 0⟩, ⟨11, 7, 0⟩, ⟨13, 9, 0⟩])
    ∧ ((3 : Int) ∈ (fillResult [⟨10, 5, 0⟩, ⟨11, 7, 0⟩, ⟨13, 9, 0⟩]).map Prod.fst ↔
        0 ≤ (3 : Int) ∧ (3 : Int) < maxSecond [⟨10, 5, 0⟩, ⟨11, 7, 0⟩, ⟨13, 9, 0⟩])
    ∧ ((2 : Int) ∈ (fillResult [⟨10, 5, 0⟩, ⟨11, 7, 0⟩, ⟨13, 9, 0⟩]).map Prod.fst ↔
        0 ≤ (2 : Int) ∧ (2 : Int) < maxSecond [⟨10, 5, 0⟩, ⟨11, 7, 0⟩, ⟨13, 9, 0⟩]) := by
  have h := gapfill_index_range [⟨10, 5, 0⟩, ⟨11, 7, 0⟩, ⟨13, 9, 0⟩]
    (by decide) (by decide)
  exact ⟨h.1, h.2.2.2 (by decide) 3, h.2.2.2 (by decide) 2⟩

/-! ## Day partitioner: the while loop and the assignment loop
  (claims C3 and C9) -/

lemma genOnsetsFuel_of_ge (fuel : Nat) (next endT : Int) (h : endT ≤ next) :
    genOnsetsFuel fuel next endT = [] := by
  cases fuel with
  | zero => rfl
  | succ f =>
    show (if next < endT then next :: genOnsetsFuel f (next + 86400) endT else []) = []
    rw [if_neg (by omega)]

lemma finalNextFuel_of_ge (fuel : Nat) (next endT : Int) (h : endT ≤ next) :
    finalNextFuel fuel next endT = next := by
  cases fuel with
  | zero => rfl
  | succ f =>
    show (if next < endT then finalNextFuel f (next + 86400) endT else next) = next
    rw [if_neg (by omega)]

lemma genOnsetsFuel_congr : ∀ (f g : Nat) (next endT : Int),
    (endT - next).toNat ≤ f → (endT - next).toNat ≤ g →
    genOnsetsFuel f next endT = genOnsetsFuel g next endT := by
  intro f
  induction f with
  | zero =>
    intro g next endT hf _
    rw [genOnsetsFuel_of_ge 0 next endT (by omega),
      genOnsetsFuel_of_ge g next endT (by omega)]
  | succ f ih =>
    intro g next endT hf hg
    by_cases h : next < endT
    · cases g with
      | zero => omega
      | succ g2 =>
        show (if next < endT then next :: genOnsetsFuel f (next + 86400) endT else []) =
          (if next < endT then next :: genOnsetsFuel g2 (next + 86400) endT else [])
        rw [if_pos h, if_pos h, ih g2 (next + 86400) endT (by omega) (by omega)]
    · rw [genOnsetsFuel_of_ge _ next endT (by omega),
        genOnsetsFuel_of_ge g next endT (by omega)]

lemma finalNextFuel_congr : ∀ (f g : Nat) (next endT : Int),
    (endT - next).toNat ≤ f → (endT - next).toNat ≤ g →
    finalNextFuel f next endT = finalNextFuel g next endT := by
  intro f
  induction f with
  | zero =>
    intro g next endT hf _
    rw [finalNextFuel_of_ge 0 next endT (by omega),
      finalNextFuel_of_ge g next endT (by omega)]
  | succ f ih =>
    intro g next endT hf hg
    by_cases h : next < endT
    · cases g with
      | zero => omega
      | succ g2 =>
        show (if next < endT then finalNextFuel f (next + 86400) endT else next) =
          (if next < endT then finalNextFuel g2 (next + 86400) endT else next)
        rw [if_pos h, if_pos h, ih g2 (next + 86400) endT (by omega) (by omega)]
    · rw [finalNextFuel_of_ge _ next endT (by omega),
        finalNextFuel_of_ge g next endT (by omega)]

/-- One unfolding of the `while next_day_onset < end_of_time` loop. -/
lemma genOnsets_eq (next endT : Int) :
    genOnsets next endT =
      if next < endT then next :: genOnsets (next + 86400) endT else [] := by
  by_cases h : next < endT
  · rw [if_pos h]
    unfold genOnsets
    have h1 : (endT - next).toNat = ((endT - next).toNat - 1) + 1 := by omega
    rw [h1]
    show (if next < endT then
        next :: genOnsetsFuel ((endT - next).toNat - 1) (next + 86400) endT
      else []) = _
    rw [if_pos h,
      genOnsetsFuel_congr ((endT - next).toNat - 1) ((endT - (next + 86400)).toNat)
        (next + 86400) endT (by omega) (by omega)]
  · rw [if_neg h]
    exact genOnsetsFuel_of_ge _ next endT (by omega)

/-- One unfolding of the post-loop boundary value. -/
lemma finalNext_eq (next endT : Int) :
    finalNext next endT =
      if next < endT then finalNext (next + 86400) endT else next := by
  by_cases h : next < endT
  · rw [if_pos h]
    unfold finalNext
    have h1 : (endT - next).toNat = ((endT - next).toNat - 1) + 1 := by omega
    rw [h1]
    show (if next < endT then
        finalNextFuel ((endT - next).toNat - 1) (next + 86400) endT
      else next) = _
    rw [if_pos h,
      finalNextFuel_congr ((endT - next).toNat - 1) ((endT - (next + 86400)).toNat)
        (next + 86400) endT (by omega) (by omega)]
  · rw [if_neg h]
    exact finalNextFuel_of_ge _ next endT (by omega)

/-- Closed form of the while loop: the generated boundaries are
  `next + 86400*k` for `k < K`, exactly those strictly below the last
  timestamp, and the post-loop boundary is `next + 86400*K`, the first
  one that meets or exceeds it. -/
lemma genOnsets_closed (next endT : Int) : ∃ K : Nat,
    genOnsets next endT =
      (List.range K).map (fun k : Nat => next + 86400 * (k : Int))
    ∧ (∀ k : Nat, k < K → next + 86400 * (k : Int) < endT)
    ∧ endT ≤ next + 86400 * (K : Int)
    ∧ finalNext next endT = next + 86400 * (K : Int) := by
  by_cases h : next < endT
  · obtain ⟨K2, h1, h2, h3, h4⟩ := genOnsets_closed (next + 86400) endT
    refine ⟨K2 + 1, ?_, ?_, ?_, ?_⟩
    · rw [genOnsets_eq, if_pos h, h1, List.range_succ_eq_map, List.map_cons,
        List.map_map]
      congr 1
      · push_cast
        ring
      · apply List.map_congr_left
        intro k hk
        simp only [Function.comp_apply]
        push_cast
        ring
    · intro k hk
      cases k with
      | zero => simpa using h
      | succ j =>
        have hj := h2 j (by omega)
        push_cast at hj ⊢
        omega
    · push_cast at h3 ⊢
      omega
    · rw [finalNext_eq, if_pos h, h4]
      push_cast
      ring
  · refine ⟨0, ?_, ?_, ?_, ?_⟩
    · rw [genOnsets_eq, if_neg h]
      rfl
    · intro k hk
      omega
    · push_cast
      omega
    · rw [finalNext_eq, if_neg h]
      push_cast
      ring
termination_by (endT - next).toNat
decreasing_by omega

/-- The first noon boundary lies strictly after the recording start. -/
lemma firstNoon_gt (t0 : Int) : t0 < firstNoon t0 := by
  unfold firstNoon noonOfDay hourOf
  have h1 : 0 ≤ t0 % 86400 := Int.emod_nonneg t0 (by norm_num)
  have h2 : t0 % 86400 < 86400 := Int.emod_lt_of_pos t0 (by norm_num)
  by_cases h12 : (t0 % 86400) / 3600 < 12
  · rw [if_pos h12]
    omega
  · rw [if_neg h12]
    omega

/-- An overwrite-style fold over `range (n+1)` yields the last index
  satisfying the mask, i.e. `Nat.findGreatest`. -/
lemma foldl_overwrite (P : Nat → Prop) [DecidablePred P] (g : Nat → Nat) :
    ∀ n : Nat,
      (List.range (n + 1)).foldl
        (fun acc d => if P d then some (g d) else acc) none =
      (if ∃ d, d ≤ n ∧ P d then some (g (Nat.findGreatest P n)) else none) := by
  intro n
  induction n with
  | zero =>
    rw [show List.range (0 + 1) = [0] from rfl]
    simp only [List.foldl_cons, List.foldl_nil]
    by_cases h : P 0
    · rw [if_pos h, if_pos ⟨0, le_refl _, h⟩, Nat.findGreatest_zero]
    · rw [if_neg h, if_neg]
      rintro ⟨d, hd, hP⟩
      have hd0 : d = 0 := by omega
      subst hd0
      exact h hP
  | succ n ih =>
    rw [List.range_succ, List.foldl_append]
    simp only [List.foldl_cons, List.foldl_nil]
    rw [ih]
    by_cases h : P (n + 1)
    · rw [if_pos h, if_pos ⟨n + 1, le_refl _, h⟩, Nat.findGreatest_succ, if_pos h]
    · rw [if_neg h, Nat.findGreatest_succ, if_neg h]
      by_cases hx : ∃ d, d ≤ n ∧ P d
      · obtain ⟨d, hd, hP⟩ := hx
        rw [if_pos ⟨d, hd, hP⟩, if_pos ⟨d, by omega, hP⟩]
      · rw [if_neg hx, if_neg]
        rintro ⟨d, hd, hP⟩
        rcases Nat.eq_or_lt_of_le hd with rfl | hlt
        · exact h hP
        · exact hx ⟨d, by omega, hP⟩

/-- Characterization of the assignment loop on a strictly increasing
  onset list whose boundaries all precede `fin`: a record before `fin`
  receives one plus the index of the latest onset at or before it; a
  record at or beyond `fin` receives NaN. -/
lemma dayLoop_char (onsets : List Int) (fin t : Int)
    (hne : onsets ≠ [])
    (hsort : List.Pairwise (· < ·) onsets)
    (hfin : ∀ o ∈ onsets, o < fin)
    (ht0 : onsets.getD 0 0 ≤ t) :
    dayLoop onsets fin t =
      if t < fin then
        some (Nat.findGreatest (fun d => onsets.getD d 0 ≤ t) (onsets.length - 1) + 1)
      else none := by
  have hm : onsets.length = (onsets.length - 1) + 1 := by
    cases onsets with
    | nil => exact absurd rfl hne
    | cons x xs => simp
  unfold dayLoop
  rw [hm, foldl_overwrite (fun d => onsets.getD d 0 ≤ t ∧ t < tomorrowFn onsets fin d)
    (fun d => d + 1) (onsets.length - 1)]
  by_cases htf : t < fin
  · rw [if_pos htf]
    set D := Nat.findGreatest (fun d => onsets.getD d 0 ≤ t) (onsets.length - 1) with hD
    have hDle : D ≤ onsets.length - 1 := Nat.findGreatest_le _
    have hQD : onsets.getD D 0 ≤ t := by
      have h := @Nat.findGreatest_spec 0 (fun d => onsets.getD d 0 ≤ t) _
        (onsets.length - 1) (Nat.zero_le _) ht0
      rw [hD]
      exact h
    have hPD : onsets.getD D 0 ≤ t ∧ t < tomorrowFn onsets fin D := by
      refine ⟨hQD, ?_⟩
      unfold tomorrowFn
      by_cases hcase : D + 1 < onsets.length - 1
      · rw [if_pos hcase]
        have hnQ : ¬ (onsets.getD (D + 1) 0 ≤ t) :=
          @Nat.findGreatest_is_greatest (D + 1) (fun d => onsets.getD d 0 ≤ t) _
            (onsets.length - 1) (by omega) (by omega)
        omega
      · rw [if_neg hcase]
        exact htf
    rw [if_pos ⟨D, hDle, hPD⟩]
    have hPeq : Nat.findGreatest
        (fun d => onsets.getD d 0 ≤ t ∧ t < tomorrowFn onsets fin d)
        (onsets.length - 1) = D := by
      rw [Nat.findGreatest_eq_iff]
      refine ⟨hDle, fun _ => hPD, ?_⟩
      intro n hn hnb hPn
      have h := @Nat.findGreatest_is_greatest n (fun d => onsets.getD d 0 ≤ t) _
        (onsets.length - 1) (by omega) hnb
      exact h hPn.1
    rw [hPeq, hD, Nat.add_sub_cancel]
  · rw [if_neg htf, if_neg]
    rintro ⟨d, hd, hq, htm⟩
    unfold tomorrowFn at htm
    by_cases hcase : d + 1 < onsets.length - 1
    · rw [if_pos hcase] at htm
      have hmem : onsets.getD (d + 1) 0 ∈ onsets := by
        have hb : d + 1 < onsets.length := by omega
        rw [List.getD_eq_getElem onsets 0 hb]
        exact List.getElem_mem hb
      have := hfin _ hmem
      omega
    · rw [if_neg hcase] at htm
      omega

lemma getD_map_of_lt (f : Int → Option Nat) (l : List Int) (i : Nat)
    (h : i < l.length) :
    (l.map f).getD i none = f (l.getD i 0) := by
  have h2 : i < (l.map f).length := by
    rw [List.length_map]
    exact h
  rw [List.getD_eq_getElem _ _ h2, List.getD_eq_getElem _ _ h, List.getElem_map]

/-- C3 (amended): after day partitioning, every record whose timestamp
  is strictly before the final generated boundary (the post-loop
  `next_day_onset`) receives exactly one day number; day numbers start
  at 1 on the first record and are non-decreasing with time. A record
  whose timestamp equals that final boundary — possible only when the
  last timestamp lands exactly on a generated noon boundary — is left
  without a day number (NaN), because every assignment mask requires
  `date_time < tomorrow`. -/
theorem day_assignment_coverage (dts : List Int) (hne : dts ≠ [])
    (hsort : List.Pairwise (· ≤ ·) dts) :
    (divide_to_24_hour_periods dts).length = dts.length
    ∧ (∀ i, i < dts.length →
        (((divide_to_24_hour_periods dts).getD i none).isSome = true ↔
          dts.getD i 0 < finalNext (firstNoon (dts.headD 0)) (dts.getLastD 0)))
    ∧ (divide_to_24_hour_periods dts).getD 0 none = some 1
    ∧ (∀ i j a b, i ≤ j → j < dts.length →
        (divide_to_24_hour_periods dts).getD i none = some a →
        (divide_to_24_hour_periods dts).getD j none = some b → a ≤ b) := by
  obtain ⟨K, hK1, hK2, hK3, hK4⟩ :=
    genOnsets_closed (firstNoon (dts.headD 0)) (dts.getLastD 0)
  have hdiv : divide_to_24_hour_periods dts =
      dts.map (dayLoop (dayOnsetsOf (dts.headD 0) (dts.getLastD 0))
        (finalNext (firstNoon (dts.headD 0)) (dts.getLastD 0))) := rfl
  have honsets : dayOnsetsOf (dts.headD 0) (dts.getLastD 0) =
      (dts.headD 0) :: (List.range K).map
        (fun k : Nat => firstNoon (dts.headD 0) + 86400 * (k : Int)) := by
    unfold dayOnsetsOf
    rw [hK1]
  have hlenOn : (dayOnsetsOf (dts.headD 0) (dts.getLastD 0)).length = K + 1 := by
    rw [honsets]
    simp
  have hneOn : dayOnsetsOf (dts.headD 0) (dts.getLastD 0) ≠ [] := by
    rw [honsets]
    simp
  have ht0fn : dts.headD 0 < firstNoon (dts.headD 0) := firstNoon_gt _
  have hsortOn : List.Pairwise (· < ·) (dayOnsetsOf (dts.headD 0) (dts.getLastD 0)) := by
    rw [honsets, List.pairwise_cons]
    constructor
    · intro x hx
      obtain ⟨k, _, rfl⟩ := List.mem_map.mp hx
      have hk0 : (0 : Int) ≤ (k : Int) := Int.natCast_nonneg k
      omega
    · rw [List.pairwise_map]
      refine (List.pairwise_lt_range K).imp ?_
      intro a b hab
      have : (a : Int) < (b : Int) := by exact_mod_cast hab
      omega
  have hfinOn : ∀ o ∈ dayOnsetsOf (dts.headD 0) (dts.getLastD 0),
      o < finalNext (firstNoon (dts.headD 0)) (dts.getLastD 0) := by
    rw [hK4, honsets]
    intro o ho
    rcases List.mem_cons.mp ho with rfl | ho2
    · have hK0 : (0 : Int) ≤ (K : Int) := Int.natCast_nonneg K
      omega
    · obtain ⟨k, hk, rfl⟩ := List.mem_map.mp ho2
      rw [List.mem_range] at hk
      have : (k : Int) < (K : Int) := by exact_mod_cast hk
      omega
  have hheadOn : (dayOnsetsOf (dts.headD 0) (dts.getLastD 0)).getD 0 0 = dts.headD 0 := by
    rw [honsets]
    rfl
  have hlenpos : 0 < dts.length := List.length_pos.mpr hne
  have hhd : dts.headD 0 = dts.getD 0 0 := by
    cases dts with
    | nil => exact absurd rfl hne
    | cons x xs => rfl
  have ht0le : ∀ i, i < dts.length → dts.headD 0 ≤ dts.getD i 0 := by
    intro i hi
    rcases Nat.eq_zero_or_pos i with rfl | hpos
    · exact le_of_eq hhd
    · have hp := List.pairwise_iff_getElem.mp hsort 0 i (by omega) hi hpos
      rw [hhd, List.getD_eq_getElem _ _ (by omega), List.getD_eq_getElem _ _ hi]
      exact hp
  have hchar : ∀ i, i < dts.length →
      (divide_to_24_hour_periods dts).getD i none =
        if dts.getD i 0 < finalNext (firstNoon (dts.headD 0)) (dts.getLastD 0) then
          some (Nat.findGreatest
            (fun d => (dayOnsetsOf (dts.headD 0) (dts.getLastD 0)).getD d 0 ≤ dts.getD i 0)
            ((dayOnsetsOf (dts.headD 0) (dts.getLastD 0)).length - 1) + 1)
        else none := by
    intro i hi
    rw [hdiv, getD_map_of_lt _ _ _ hi]
    exact dayLoop_char _ _ _ hneOn hsortOn hfinOn (by rw [hheadOn]; exact ht0le i hi)
  have htmono : ∀ i j, i ≤ j → j < dts.length → dts.getD i 0 ≤ dts.getD j 0 := by
    intro i j hij hj
    rcases Nat.eq_or_lt_of_le hij with rfl | hlt
    · exact le_refl _
    · have hp := List.pairwise_iff_getElem.mp hsort i j (by omega) hj hlt
      rw [List.getD_eq_getElem _ _ (by omega), List.getD_eq_getElem _ _ hj]
      exact hp
  refine ⟨?_, ?_, ?_, ?_⟩
  · rw [hdiv, List.length_map]
  · intro i hi
    rw [hchar i hi]
    by_cases h : dts.getD i 0 < finalNext (firstNoon (dts.headD 0)) (dts.getLastD 0)
    · rw [if_pos h]
      simpa using h
    · rw [if_neg h]
      simpa using h
  · rw [hchar 0 hlenpos]
    have ht0fin : dts.getD 0 0 < finalNext (firstNoon (dts.headD 0)) (dts.getLastD 0) := by
      have hK0 : (0 : Int) ≤ (K : Int) := Int.natCast_nonneg K
      rw [hK4]
      omega
    rw [if_pos ht0fin]
    have hfg : Nat.findGreatest
        (fun d => (dayOnsetsOf (dts.headD 0) (dts.getLastD 0)).getD d 0 ≤ dts.getD 0 0)
        ((dayOnsetsOf (dts.headD 0) (dts.getLastD 0)).length - 1) = 0 := by
      rw [Nat.findGreatest_eq_iff]
      refine ⟨Nat.zero_le _, fun hc => absurd rfl hc, ?_⟩
      intro n hn hnb
      rw [hlenOn, Nat.add_sub_cancel] at hnb
      have hval : (dayOnsetsOf (dts.headD 0) (dts.getLastD 0)).getD n 0 =
          firstNoon (dts.headD 0) + 86400 * ((n - 1 : Nat) : Int) := by
        rw [honsets, show n = (n - 1) + 1 by omega, List.getD_cons_succ]
        have hb : n - 1 < ((List.range K).map
            (fun k : Nat => firstNoon (dts.headD 0) + 86400 * (k : Int))).length := by
          rw [List.length_map, List.length_range]
          omega
        rw [List.getD_eq_getElem _ _ hb, List.getElem_map, List.getElem_range,
          Nat.add_sub_cancel]
      rw [hval]
      intro hcon
      have hn0 : (0 : Int) ≤ ((n - 1 : Nat) : Int) := Int.natCast_nonneg _
      rw [← hhd] at hcon
      omega
    rw [hfg]
  · intro i j a b hij hj hia hjb
    have hi : i < dts.length := by omega
    rw [hchar i hi] at hia
    rw [hchar j hj] at hjb
    by_cases h1 : dts.getD i 0 < finalNext (firstNoon (dts.headD 0)) (dts.getLastD 0)
    · rw [if_pos h1] at hia
      by_cases h2 : dts.getD j 0 < finalNext (firstNoon (dts.headD 0)) (dts.getLastD 0)
      · rw [if_pos h2] at hjb
        have ha := Option.some.inj hia
        have hb := Option.some.inj hjb
        have hQi := @Nat.findGreatest_spec 0
          (fun d => (dayOnsetsOf (dts.headD 0) (dts.getLastD 0)).getD d 0 ≤ dts.getD i 0) _
          ((dayOnsetsOf (dts.headD 0) (dts.getLastD 0)).length - 1)
          (Nat.zero_le _)
          (by
            show (dayOnsetsOf (dts.headD 0) (dts.getLastD 0)).getD 0 0 ≤ dts.getD i 0
            rw [hheadOn]
            exact ht0le i hi)
        have hmono := @Nat.le_findGreatest
          (Nat.findGreatest
            (fun d => (dayOnsetsOf (dts.headD 0) (dts.getLastD 0)).getD d 0 ≤ dts.getD i 0)
            ((dayOnsetsOf (dts.headD 0) (dts.getLastD 0)).length - 1))
          (fun d => (dayOnsetsOf (dts.headD 0) (dts.getLastD 0)).getD d 0 ≤ dts.getD j 0) _
          ((dayOnsetsOf (dts.headD 0) (dts.getLastD 0)).length - 1)
          (Nat.findGreatest_le _) (le_trans hQi (htmono i j hij hj))
        omega
      · rw [if_neg h2] at hjb
        exact absurd hjb (by simp)
    · rw [if_neg h1] at hia
      exact absurd hia (by simp)

/-- C3 (witness for the amended theorem): a sorted three-record timeline
  starting at 03:00 local. -/
theorem day_assignment_coverage_witness :
    (divide_to_24_hour_periods [10800, 50000, 200000]).length =
      ([10800, 50000, 200000] : List Int).length
    ∧ (divide_to_24_hour_periods [10800, 50000, 200000]).getD 0 none = some 1 := by
  have h := day_assignment_coverage [10800, 50000, 200000] (by decide) (by decide)
  exact ⟨h.1, h.2.2.1⟩

/-- C9 (confirmed): the day-onset sequence starts with the recording's
  first timestamp; the first noon boundary is the same local calendar
  date at 12:00 when the start's hour is below 12 and the next date at
  12:00 otherwise; and the remaining onsets are obtained by repeatedly
  adding 24 hours, collecting exactly the boundaries that are still
  strictly below the timeline's last timestamp. -/
theorem day_onsets_spec (dts : List Int) (hne : dts ≠ []) :
    (dayOnsetsOf (dts.headD 0) (dts.getLastD 0)).headD 0 = dts.headD 0
    ∧ (hourOf (dts.headD 0) < 12 →
        firstNoon (dts.headD 0) = sameDateNoonSpec (dts.headD 0))
    ∧ (¬ hourOf (dts.headD 0) < 12 →
        firstNoon (dts.headD 0) = sameDateNoonSpec (dts.headD 0) + 86400)
    ∧ ∃ K : Nat,
        dayOnsetsOf (dts.headD 0) (dts.getLastD 0) =
          (dts.headD 0) :: (List.range K).map
            (fun k : Nat => firstNoon (dts.headD 0) + 86400 * (k : Int))
        ∧ (∀ k : Nat, k < K →
            firstNoon (dts.headD 0) + 86400 * (k : Int) < dts.getLastD 0)
        ∧ dts.getLastD 0 ≤ firstNoon (dts.headD 0) + 86400 * (K : Int) := by
  refine ⟨rfl, ?_, ?_, ?_⟩
  · intro h12
    unfold firstNoon
    rw [if_pos h12]
    unfold noonOfDay sameDateNoonSpec
    omega
  · intro h12
    unfold firstNoon
    rw [if_neg h12]
    unfold noonOfDay sameDateNoonSpec
    omega
  · obtain ⟨K, hK1, hK2, hK3, _⟩ :=
      genOnsets_closed (firstNoon (dts.headD 0)) (dts.getLastD 0)
    refine ⟨K, ?_, hK2, hK3⟩
    unfold dayOnsetsOf
    rw [hK1]

/-- C9 (witness): a concrete two-record timeline starting at 13:00
  local on day 0. -/
theorem day_onsets_spec_witness :
    (dayOnsetsOf (([46800, 200000] : List Int).headD 0)
        (([46800, 200000] : List Int).getLastD 0)).headD 0 =
      ([46800, 200000] : List Int).headD 0
    ∧ (hourOf (([46800, 200000] : List Int).headD 0) < 12 →
        firstNoon (([46800, 200000] : List Int).headD 0) =
          sameDateNoonSpec (([46800, 200000] : List Int).headD 0))
    ∧ (¬ hourOf (([46800, 200000] : List Int).headD 0) < 12 →
        firstNoon (([46800, 200000] : List Int).headD 0) =
          sameDateNoonSpec (([46800, 200000] : List Int).headD 0) + 86400)
    ∧ ∃ K : Nat,
        dayOnsetsOf (([46800, 200000] : List Int).headD 0)
            (([46800, 200000] : List Int).getLastD 0) =
          (([46800, 200000] : List Int).headD 0) :: (List.range K).map
            (fun k : Nat =>
              firstNoon (([46800, 200000] : List Int).headD 0) + 86400 * (k : Int))
        ∧ (∀ k : Nat, k < K →
            firstNoon (([46800, 200000] : List Int).headD 0) + 86400 * (k : Int) <
              ([46800, 200000] : List Int).getLastD 0)
        ∧ ([46800, 200000] : List Int).getLastD 0 ≤
            firstNoon (([46800, 200000] : List Int).headD 0) + 86400 * (K : Int) :=
  day_onsets_spec [46800, 200000] (by decide)

end Sleeposcope
